import Mathlib

/-!
Shallow embedding of the core of `exif-parallel-organizer.py` (and, where a
claim refers to it, of the sibling `exif-date-organizer.py`), together with
proofs of the specification claims.

Python strings are modelled as `List Char` (`PyStr`); the filesystem is
modelled as the list of existing paths, threaded explicitly; the per-file
metadata readers (PIL / hachoir), which are external libraries, are modelled
as oracles supplying their return values.
-/

namespace ExifOrganizer

abbrev PyStr := List Char

/-- Python's `str.strip()` whitespace set (ASCII). -/
def isPySpace (c : Char) : Bool :=
  c = ' ' || c = '\t' || c = '\n' || c = '\r' || c = Char.ofNat 11 || c = Char.ofNat 12

/-- Character class of the leading-noise regex `^[\d\.\-\/\s]+`. -/
def isNoiseChar (c : Char) : Bool :=
  c.isDigit || c = '.' || c = '-' || c = '/' || isPySpace c

/-- Python `str.strip()`. -/
def pyStrip (s : PyStr) : PyStr :=
  ((s.dropWhile isPySpace).reverse.dropWhile isPySpace).reverse

/-- Python `str.upper()` (ASCII fragment). -/
def pyUpper (s : PyStr) : PyStr := s.map Char.toUpper

/-- Python `str.lower()` (ASCII fragment). -/
def pyLower (s : PyStr) : PyStr := s.map Char.toLower

/-- Helper for `str.title()`: the flag records whether the previous
character was alphabetic. -/
def pyTitleAux : Bool → PyStr → PyStr
  | _, [] => []
  | prevAlpha, c :: cs =>
    if c.isAlpha then
      (if prevAlpha then c.toLower else c.toUpper) :: pyTitleAux true cs
    else c :: pyTitleAux false cs

/-- Python `str.title()`. -/
def pyTitle (s : PyStr) : PyStr := pyTitleAux false s

/-- Python `str.capitalize()`. -/
def pyCapitalize : PyStr → PyStr
  | [] => []
  | c :: cs => c.toUpper :: pyLower cs

/-- The `--case` argument values (argparse choices plus the `sentence`
value accepted by `exif-date-organizer.py`). -/
inductive CaseT where
  | title
  | upper
  | lower
  | sentence
deriving DecidableEq

/-- `MediaFolderOrganizer._clean_base_name` from `exif-parallel-organizer.py`:
strip the leading-noise prefix, strip whitespace, return `""` when nothing is
left, otherwise apply the configured casing (anything other than `upper` or
`lower` falls through to `.title()`). -/
def clean_base_name (case : CaseT) (name : PyStr) : PyStr :=
  let clean := pyStrip (name.dropWhile isNoiseChar)
  if clean = [] then []
  else
    match case with
    | CaseT.upper => pyUpper clean
    | CaseT.lower => pyLower clean
    | _ => pyTitle clean

/-- `clean_folder_name_regex` from `exif-date-organizer.py`: same stripping,
but an empty stripped result falls back to the original folder name. -/
def clean_folder_name_regex (case : CaseT) (foldername : PyStr) : PyStr :=
  let cleaned := pyStrip (foldername.dropWhile isNoiseChar)
  if cleaned = [] then foldername
  else
    match case with
    | CaseT.upper => pyUpper cleaned
    | CaseT.lower => pyLower cleaned
    | CaseT.title => pyTitle cleaned
    | CaseT.sentence => pyCapitalize cleaned

/-- A calendar date as carried by a Python `datetime` (only the fields the
program uses). -/
structure PyDate where
  year : Nat
  month : Nat
  day : Nat
deriving DecidableEq

/-- Decimal digits of `n`, most significant first; the first argument is
recursion fuel (any fuel `≥ n` suffices for positive `n`). -/
def natCharsAux : Nat → Nat → PyStr
  | 0, _ => []
  | fuel + 1, n => if n = 0 then [] else natCharsAux fuel (n / 10) ++ [Nat.digitChar (n % 10)]

/-- Python `str(n)` / `f"{n}"` for a natural number. -/
def natChars (n : Nat) : PyStr := if n = 0 then ['0'] else natCharsAux n n

/-- Left-pad with `'0'` to width `w` (the behaviour of `strftime`'s
zero-padded fields). -/
def padZeros (w : Nat) (s : PyStr) : PyStr := List.replicate (w - s.length) '0' ++ s

/-- `strftime` field `%m` / `%d`. -/
def fmt02 (n : Nat) : PyStr := padZeros 2 (natChars n)

/-- `strftime` field `%Y`. -/
def fmt04 (n : Nat) : PyStr := padZeros 4 (natChars n)

/-- `date_obj.strftime("%Y-%m-%d")`: the histogram key. -/
def isoDate (d : PyDate) : PyStr :=
  fmt04 d.year ++ '-' :: (fmt02 d.month ++ '-' :: fmt02 d.day)

/-- Tuning knob `SAMPLE_SIZE` from `exif-parallel-organizer.py`. -/
def SAMPLE_SIZE : Nat := 50

/-- Tuning knob `MIN_YEAR`. -/
def MIN_YEAR : Nat := 2000

/-- `date_counter[key] += 1` on a `collections.Counter`, modelled as an
association list in insertion order (Python dicts preserve insertion
order). -/
def bump : List (PyStr × Nat) → PyStr → List (PyStr × Nat)
  | [], k => [(k, 1)]
  | (k', c) :: t, k => if k' = k then (k', c + 1) :: t else (k', c) :: bump t k

/-- One step of the scanning loop: fold a per-file extraction result into
the histogram (`none` = the file yielded no date). -/
def bumpOpt (h : List (PyStr × Nat)) : Option PyDate → List (PyStr × Nat)
  | some dt => bump h (isoDate dt)
  | none => h

/-- The sampling loop of `MetadataScanner.scan_folder`: before each file the
cap on successfully dated files is checked; every processed file increments
`scanned_count`; only files yielding a date bump the histogram and the
valid-date counter. -/
def scanLoop : List (Option PyDate) → Nat → List (PyStr × Nat) → Nat →
    List (PyStr × Nat) × Nat
  | [], _, hist, scanned => (hist, scanned)
  | d :: rest, valid, hist, scanned =>
    if SAMPLE_SIZE ≤ valid then (hist, scanned)
    else
      match d with
      | some dt => scanLoop rest (valid + 1) (bump hist (isoDate dt)) (scanned + 1)
      | none => scanLoop rest valid hist (scanned + 1)

/-- `MetadataScanner.scan_folder`, with the per-file date extraction results
(the ordered `files_found` list passed through `_get_date`) supplied as an
oracle list. Returns the date histogram and `scanned_count`. -/
def scan_folder (ds : List (Option PyDate)) : List (PyStr × Nat) × Nat :=
  scanLoop ds 0 [] 0

/-- Sum of the histogram's occurrence counts. -/
def histSum (h : List (PyStr × Nat)) : Nat := (h.map Prod.snd).sum

/-- Number of files in a slice of the oracle list that yielded a date. -/
def countSome (l : List (Option PyDate)) : Nat := l.countP (fun o => o.isSome)

/-- `Counter.most_common(1)` (as the head of the returned list):
`heapq.nlargest(1, items, key)` is `max(items, key)`, which returns the
first item attaining the maximal count in iteration (= insertion) order. -/
def most_common1 : List (PyStr × Nat) → Option (PyStr × Nat)
  | [] => none
  | (k, c) :: t =>
    match most_common1 t with
    | none => some (k, c)
    | some (k', c') => if c < c' then some (k', c') else some (k, c)

/-- `conf = count / total if total > 0 else 0`, with real division modelled
exactly on the rationals. -/
def confidence (count total : Nat) : ℚ :=
  if 0 < total then (count : ℚ) / (total : ℚ) else 0

/-- Render `m` mod 100 as two digits (helper for the 2-decimal format). -/
def fmtConf (q : ℚ) : PyStr :=
  let m : Nat := (round (q * 100) : ℤ).toNat
  natChars (m / 100) ++ '.' :: padZeros 2 (natChars (m % 100))

/-- The reason string `f"Low confidence ({conf:.2f})"`. -/
def lowConfReason (q : ℚ) : PyStr :=
  ("Low confidence (").toList ++ fmtConf q ++ [')']

/-- `os.path.basename` (POSIX): the part after the last slash. -/
def basename (p : PyStr) : PyStr :=
  (p.reverse.takeWhile (fun c => c ≠ '/')).reverse

/-- `os.path.dirname` (POSIX): the part up to the last slash, with trailing
slashes removed unless it consists only of slashes. -/
def dirname (p : PyStr) : PyStr :=
  let head := (p.reverse.dropWhile (fun c => c ≠ '/')).reverse
  let strippedSlash := (head.reverse.dropWhile (fun c => c = '/')).reverse
  if strippedSlash = [] then head else strippedSlash

/-- `os.path.join` (POSIX) for the two-argument case used by the program. -/
def pathJoin (p n : PyStr) : PyStr :=
  if n.head? = some '/' then n
  else if p = [] then n
  else if p.getLast? = some '/' then p ++ n
  else p ++ '/' :: n

/-- The character class `INVALID_FILENAME_CHARS = r'[<>:"/\\|?*]'`. -/
def isInvalidFileChar (c : Char) : Bool :=
  c = '<' || c = '>' || c = ':' || c = '"' || c = '/' || c = '\\' ||
  c = '|' || c = '?' || c = '*'

/-- `RenameExecutor.sanitize_name`: delete the illegal characters, then
strip whitespace. -/
def sanitize_name (s : PyStr) : PyStr :=
  pyStrip (s.filter (fun c => !(isInvalidFileChar c)))

/-- `f"{base_path} ({counter})"`. -/
def candidateName (base : PyStr) (n : Nat) : PyStr :=
  base ++ ' ' :: '(' :: (natChars n ++ [')'])

/-- The `while True` search of `RenameExecutor.get_unique_path`, with
explicit fuel (the caller supplies enough fuel — see
`exists_free_candidate`). -/
def findFree (fs : List PyStr) (base : PyStr) : Nat → Nat → Nat
  | 0, n => n
  | fuel + 1, n =>
    if candidateName base n ∈ fs then findFree fs base fuel (n + 1) else n

/-- `RenameExecutor.get_unique_path`, over the filesystem `fs` (the list of
existing paths, queried by `os.path.exists`). -/
def get_unique_path (fs : List PyStr) (base : PyStr) : PyStr :=
  if base ∈ fs then candidateName base (findFree fs base (fs.length + 1) 1)
  else base

/-- `os.rename old new`: `old` disappears, `new` appears. -/
def osRename (fs : List PyStr) (old new : PyStr) : List PyStr :=
  new :: fs.erase old

/-- Result of `RenameExecutor.execute`: the status, the returned name (for
`error` this slot carries the error message, exactly as in the source), and
the filesystem after the call. -/
structure ExecOut where
  status : String
  name : PyStr
  fs : List PyStr
deriving DecidableEq

/-- `RenameExecutor.execute`. In live mode the unique target is computed,
the source is re-checked, and the rename is performed; a vanished source
yields `error "Source missing"`. In dry-run mode the same unique target is
computed but the filesystem is returned untouched. -/
def execute (fs : List PyStr) (old_path new_name : PyStr) (live_mode : Bool) : ExecOut :=
  let parent_dir := dirname old_path
  let safe_name := sanitize_name new_name
  let target := pathJoin parent_dir safe_name
  if basename old_path = safe_name then ⟨"unchanged", safe_name, fs⟩
  else if live_mode then
    let final := get_unique_path fs target
    if old_path ∈ fs then ⟨"renamed", basename final, osRename fs old_path final⟩
    else ⟨"error", "Source missing".toList, fs⟩
  else
    let final := get_unique_path fs target
    ⟨"dry_run", basename final, fs⟩

/-- The configuration fields of `MediaFolderOrganizer` used by
`_process_folder`. -/
structure Config where
  live_run : Bool
  conf_threshold : ℚ
  name_case : CaseT

/-- One `FolderResult` record, with the fields of the dict built by
`_process_folder` (`full_new_path` is only added once the execute step has
run, hence the `Option`). -/
structure FolderResult where
  status : String
  name : PyStr
  reason : PyStr
  new_name : PyStr
  original_path : PyStr
  full_new_path : Option PyStr
deriving DecidableEq

/-- `MediaFolderOrganizer._process_folder`: scan, decide, plan, execute.
Returns the `FolderResult` and the filesystem after the call. -/
def process_folder (cfg : Config) (fs : List PyStr) (folder_path : PyStr)
    (ds : List (Option PyDate)) : FolderResult × List PyStr :=
  let folder_name := basename folder_path
  let base : FolderResult :=
    ⟨"skipped", folder_name, [], [], folder_path, none⟩
  let scanned := scan_folder ds
  let dates := scanned.1
  let total := scanned.2
  if dates = [] then ({ base with reason := ("No valid dates found (Empty)").toList }, fs)
  else
    match most_common1 dates with
    | none => ({ base with reason := ("Date list empty").toList }, fs)
    | some (top_date, count) =>
      if top_date = [] then ({ base with reason := ("Top date None").toList }, fs)
      else
        let conf := confidence count total
        if conf < cfg.conf_threshold then
          ({ base with reason := lowConfReason conf }, fs)
        else
          let base_name := clean_base_name cfg.name_case folder_name
          let cand := pyStrip (top_date ++ ' ' :: base_name)
          let out := execute fs folder_path cand cfg.live_run
          ({ base with
              status := out.status
              new_name := out.name
              full_new_path := some (pathJoin (dirname folder_path) out.name)
              reason := if out.status = "error" then out.name else [] }, out.fs)

/-- The file kinds distinguished by `_get_date` via the extension lists. -/
inductive FileKind where
  | image
  | video
  | other
deriving DecidableEq

/-- `if not date_str` / Python `or` falsiness for the EXIF tag values:
an absent tag or an empty string falls through. -/
def orFalsy : Option PyStr → Option PyStr → Option PyStr
  | some s, b => if s = [] then b else some s
  | none, b => b

/-- The preprocessing in `MetadataScanner._parse_date`:
`str(s).strip().split('+')[0].split('Z')[0].replace('T',' ')`, then
`split(' ')[0].replace('-',':')`. -/
def datePart (s : PyStr) : PyStr :=
  let s1 := (pyStrip s).takeWhile (fun c => c ≠ '+')
  let s2 := (s1.takeWhile (fun c => c ≠ 'Z')).map (fun c => if c = 'T' then ' ' else c)
  (s2.takeWhile (fun c => c ≠ ' ')).map (fun c => if c = '-' then ':' else c)

/-- Numeric value of a decimal digit list (helper for `strptime`). -/
def digitsVal (s : PyStr) : Nat :=
  s.foldl (fun acc c => acc * 10 + (c.toNat - 48)) 0

/-- The `%m` pattern `1[0-2]|0[1-9]|[1-9]` of CPython's `strptime`:
one digit `1-9`, or two digits with value `01`-`12`. -/
def monthOk (s : PyStr) : Bool :=
  (s.all Char.isDigit) &&
  ((s.length = 1 && 1 ≤ digitsVal s) ||
   (s.length = 2 && 1 ≤ digitsVal s && digitsVal s ≤ 12))

/-- The `%d` pattern `3[01]|[12]\d|0[1-9]|[1-9]` of CPython's `strptime`:
one digit `1-9`, or two digits with value `01`-`31`. -/
def dayOk (s : PyStr) : Bool :=
  (s.all Char.isDigit) &&
  ((s.length = 1 && 1 ≤ digitsVal s) ||
   (s.length = 2 && 1 ≤ digitsVal s && digitsVal s ≤ 31))

/-- Gregorian month lengths as validated by the `datetime` constructor. -/
def daysInMonth (year month : Nat) : Nat :=
  if month = 2 then
    if year % 4 = 0 && (year % 100 ≠ 0 || year % 400 = 0) then 29 else 28
  else if month = 4 || month = 6 || month = 9 || month = 11 then 30
  else 31

/-- `datetime.strptime(s, "%Y:%m:%d")`: `%Y` is exactly four digits, the
separators are literal colons, the whole string must be consumed, and the
`datetime` constructor validates the calendar (`MINYEAR = 1`). A failed
match raises `ValueError` in Python, modelled as `none`. -/
def strptimeYMD (s : PyStr) : Option PyDate :=
  match s.splitOn ':' with
  | [ys, ms, dss] =>
    if ys.length = 4 && ys.all Char.isDigit && monthOk ms && dayOk dss then
      let y := digitsVal ys
      let m := digitsVal ms
      let d := digitsVal dss
      if 1 ≤ y && 1 ≤ d && d ≤ daysInMonth y m then some ⟨y, m, d⟩
      else none
    else none
  | _ => none

/-- `MetadataScanner._parse_date`: falsy input, any parse failure, and a
year outside `[MIN_YEAR, maxYear]` all yield `none`; every exception is
caught. `maxYear` stands for `MAX_YEAR = datetime.now().year + 1`. -/
def parse_date (date_str : Option PyStr) (maxYear : Nat) : Option PyDate :=
  match date_str with
  | none => none
  | some s =>
    if s = [] then none
    else
      match strptimeYMD (datePart s) with
      | none => none
      | some dt => if MIN_YEAR ≤ dt.year && dt.year ≤ maxYear then some dt else none

/-- `MetadataScanner._get_image_date`: the oracle `exif` is `none` when
`Image.open` raised or `getexif()` was empty/falsy; otherwise it carries
the values of tags 36867 and 306. -/
def get_image_date (exif : Option (Option PyStr × Option PyStr)) (maxYear : Nat) :
    Option PyDate :=
  match exif with
  | none => none
  | some (t36867, t306) => parse_date (orFalsy t36867 t306) maxYear

/-- `MetadataScanner._get_video_date`: `none` without hachoir; otherwise the
container's `creation_date` (the oracle `vmeta`) is returned as-is, with no
year-range check. -/
def get_video_date (hachoir : Bool) (vmeta : Option PyDate) : Option PyDate :=
  if hachoir then vmeta else none

/-- `MetadataScanner._get_date`: dispatch on the file kind determined by the
extension lists. -/
def get_date (kind : FileKind) (exif : Option (Option PyStr × Option PyStr))
    (hachoir : Bool) (vmeta : Option PyDate) (maxYear : Nat) : Option PyDate :=
  match kind with
  | FileKind.image => get_image_date exif maxYear
  | FileKind.video => get_video_date hachoir vmeta
  | FileKind.other => none

/-- Number of files the sampling loop processes when started with `v` valid
dates already found. -/
def procCount : List (Option PyDate) → Nat → Nat
  | [], _ => 0
  | d :: rest, v =>
    if SAMPLE_SIZE ≤ v then 0
    else procCount rest (v + if d.isSome then 1 else 0) + 1

theorem countSome_nil : countSome [] = 0 := rfl

theorem countSome_cons (o : Option PyDate) (l : List (Option PyDate)) :
    countSome (o :: l) = (if o.isSome then 1 else 0) + countSome l := by
  cases o <;> simp [countSome, List.countP_cons, Nat.add_comm]

/-- The sampling loop processes exactly the first `procCount` files: it folds
them into the histogram and counts each one. -/
theorem scanLoop_eq (ds : List (Option PyDate)) : ∀ v h s,
    scanLoop ds v h s =
      ((ds.take (procCount ds v)).foldl bumpOpt h, s + procCount ds v) := by
  induction ds with
  | nil => intro v h s; simp [scanLoop, procCount]
  | cons d rest ih =>
    intro v h s
    by_cases hc : SAMPLE_SIZE ≤ v
    · simp [scanLoop, procCount, hc]
    · cases d with
      | some dt =>
        have h2 := ih (v + 1) (bump h (isoDate dt)) (s + 1)
        simp only [scanLoop, if_neg hc, h2]
        simp [procCount, hc, bumpOpt]
        all_goals omega
      | none =>
        have h2 := ih v h (s + 1)
        simp only [scanLoop, if_neg hc, h2]
        simp [procCount, hc, bumpOpt]
        all_goals omega

theorem scan_folder_eq (ds : List (Option PyDate)) :
    scan_folder ds =
      ((ds.take (procCount ds 0)).foldl bumpOpt [], procCount ds 0) := by
  simpa using scanLoop_eq ds 0 [] 0

theorem histSum_bump (h : List (PyStr × Nat)) (k : PyStr) :
    histSum (bump h k) = histSum h + 1 := by
  induction h with
  | nil => simp [bump, histSum]
  | cons p t ih =>
    obtain ⟨k', c⟩ := p
    by_cases hk : k' = k
    · simp [bump, hk, histSum]; omega
    · simp [bump, hk, histSum] at ih ⊢; omega

theorem histSum_foldl (P : List (Option PyDate)) : ∀ h,
    histSum (P.foldl bumpOpt h) = histSum h + countSome P := by
  induction P with
  | nil => intro h; simp [countSome_nil]
  | cons o rest ih =>
    intro h
    cases o with
    | some dt =>
      simp [bumpOpt, ih, histSum_bump, countSome_cons]; omega
    | none =>
      simp [bumpOpt, ih, countSome_cons]

theorem procCount_le_length (ds : List (Option PyDate)) : ∀ v,
    procCount ds v ≤ ds.length := by
  induction ds with
  | nil => intro v; simp [procCount]
  | cons d rest ih =>
    intro v
    by_cases hc : SAMPLE_SIZE ≤ v
    · simp [procCount, hc]
    · simp only [procCount, if_neg hc, List.length_cons]
      have := ih (v + if d.isSome then 1 else 0)
      omega

theorem procCount_lt_cap (ds : List (Option PyDate)) : ∀ v k,
    k < procCount ds v → v + countSome (ds.take k) < SAMPLE_SIZE := by
  induction ds with
  | nil => intro v k hk; simp [procCount] at hk
  | cons d rest ih =>
    intro v k hk
    by_cases hc : SAMPLE_SIZE ≤ v
    · simp [procCount, hc] at hk
    · simp only [procCount, if_neg hc] at hk
      cases k with
      | zero => simpa [countSome_nil] using Nat.lt_of_not_le hc
      | succ k' =>
        have hk' : k' < procCount rest (v + if d.isSome then 1 else 0) := by omega
        have := ih (v + if d.isSome then 1 else 0) k' hk'
        simp only [List.take_succ_cons, countSome_cons]
        omega

theorem procCount_stop (ds : List (Option PyDate)) : ∀ v,
    v ≤ SAMPLE_SIZE → procCount ds v < ds.length →
    v + countSome (ds.take (procCount ds v)) = SAMPLE_SIZE := by
  induction ds with
  | nil => intro v _ hlt; simp [procCount] at hlt
  | cons d rest ih =>
    intro v hv hlt
    by_cases hc : SAMPLE_SIZE ≤ v
    · simp [procCount, hc, countSome_nil]; omega
    · simp only [procCount, if_neg hc, List.length_cons] at hlt ⊢
      have hv' : v + (if d.isSome then 1 else 0) ≤ SAMPLE_SIZE := by
        have := Nat.lt_of_not_le hc; split <;> omega
      have hlt' : procCount rest (v + if d.isSome then 1 else 0) < rest.length := by omega
      have := ih (v + if d.isSome then 1 else 0) hv' hlt'
      simp only [List.take_succ_cons, countSome_cons]
      omega

theorem procCount_total_le (ds : List (Option PyDate)) : ∀ v,
    v ≤ SAMPLE_SIZE → v + countSome (ds.take (procCount ds v)) ≤ SAMPLE_SIZE := by
  induction ds with
  | nil => intro v hv; simp [procCount, countSome_nil]; omega
  | cons d rest ih =>
    intro v hv
    by_cases hc : SAMPLE_SIZE ≤ v
    · simp [procCount, hc, countSome_nil]; omega
    · simp only [procCount, if_neg hc]
      have hv' : v + (if d.isSome then 1 else 0) ≤ SAMPLE_SIZE := by
        have := Nat.lt_of_not_le hc; split <;> omega
      have := ih (v + if d.isSome then 1 else 0) hv'
      simp only [List.take_succ_cons, countSome_cons]
      omega

/-- The keys of a histogram, in insertion order. -/
def keysOf (h : List (PyStr × Nat)) : List PyStr := h.map Prod.fst

/-- First occurrences of the elements of a list, in order, skipping those
already in `seen`. -/
def firstOccsAux (seen : List PyStr) : List PyStr → List PyStr
  | [] => []
  | x :: xs =>
    if x ∈ seen then firstOccsAux seen xs else x :: firstOccsAux (x :: seen) xs

theorem keysOf_nil : keysOf [] = [] := rfl

theorem keysOf_cons (k : PyStr) (c : Nat) (t : List (PyStr × Nat)) :
    keysOf ((k, c) :: t) = k :: keysOf t := rfl

theorem bump_keys (h : List (PyStr × Nat)) (k : PyStr) :
    keysOf (bump h k) = if k ∈ keysOf h then keysOf h else keysOf h ++ [k] := by
  induction h with
  | nil => simp [bump, keysOf]
  | cons p t ih =>
    obtain ⟨k', c⟩ := p
    by_cases hk : k' = k
    · subst hk
      simp [bump, keysOf_cons]
    · have hne : k ≠ k' := Ne.symm hk
      have hb : bump ((k', c) :: t) k = (k', c) :: bump t k := by
        simp [bump, hk]
      rw [hb, keysOf_cons, keysOf_cons, ih]
      by_cases hmem : k ∈ keysOf t
      · rw [if_pos hmem, if_pos (List.mem_cons_of_mem _ hmem)]
      · rw [if_neg hmem, if_neg (by simp [hne, hmem])]
        simp

theorem firstOccsAux_congr (l : List PyStr) : ∀ s1 s2 : List PyStr,
    (∀ x, x ∈ s1 ↔ x ∈ s2) → firstOccsAux s1 l = firstOccsAux s2 l := by
  induction l with
  | nil => intro s1 s2 _; rfl
  | cons x xs ih =>
    intro s1 s2 hs
    by_cases hx : x ∈ s1
    · have hx2 : x ∈ s2 := (hs x).mp hx
      simp [firstOccsAux, hx, hx2, ih s1 s2 hs]
    · have hx2 : x ∉ s2 := fun h => hx ((hs x).mpr h)
      simp only [firstOccsAux, if_neg hx, if_neg hx2]
      have : ∀ y, y ∈ x :: s1 ↔ y ∈ x :: s2 := by
        intro y; simp [hs y]
      rw [ih _ _ this]

/-- The histogram's key sequence extends by each date the first time that
date is seen during the fold. -/
theorem foldl_keys (P : List (Option PyDate)) : ∀ h,
    keysOf (P.foldl bumpOpt h) =
      keysOf h ++ firstOccsAux (keysOf h) (P.filterMap (fun o => o.map isoDate)) := by
  induction P with
  | nil => intro h; simp [firstOccsAux]
  | cons o rest ih =>
    intro h
    cases o with
    | none => simp [bumpOpt, ih]
    | some dt =>
      simp only [List.foldl_cons, bumpOpt, List.filterMap_cons_some, Option.map_some]
      rw [ih (bump h (isoDate dt)), bump_keys]
      by_cases hmem : isoDate dt ∈ keysOf h
      · simp [hmem, firstOccsAux]
      · simp only [if_neg hmem, firstOccsAux, hmem, if_false, List.append_assoc,
          List.singleton_append]
        have : ∀ y, y ∈ keysOf h ++ [isoDate dt] ↔ y ∈ isoDate dt :: keysOf h := by
          intro y; simp [or_comm]
        rw [firstOccsAux_congr _ _ _ this]

theorem bump_pos (h : List (PyStr × Nat)) (k : PyStr)
    (hp : ∀ q ∈ h, 1 ≤ q.2) : ∀ p ∈ bump h k, 1 ≤ p.2 := by
  induction h with
  | nil => simp [bump]
  | cons q t ih =>
    obtain ⟨k', c⟩ := q
    by_cases hk : k' = k
    · simp only [bump, if_pos hk]
      intro p hp'
      rcases List.mem_cons.mp hp' with h1 | h2
      · subst h1; simp
      · exact hp p (List.mem_cons_of_mem _ h2)
    · simp only [bump, if_neg hk]
      intro p hp'
      rcases List.mem_cons.mp hp' with h1 | h2
      · subst h1; exact hp _ (List.mem_cons_self _ _)
      · exact ih (fun q hq => hp q (List.mem_cons_of_mem _ hq)) p h2

theorem foldl_pos (P : List (Option PyDate)) : ∀ h,
    (∀ q ∈ h, 1 ≤ q.2) → ∀ p ∈ P.foldl bumpOpt h, 1 ≤ p.2 := by
  induction P with
  | nil => intro h hp; simpa using hp
  | cons o rest ih =>
    intro h hp
    cases o with
    | none => exact ih h hp
    | some dt => exact ih (bump h (isoDate dt)) (bump_pos h (isoDate dt) hp)

theorem isoDate_ne_nil (d : PyDate) : isoDate d ≠ [] := by
  simp [isoDate]

theorem bump_keys_ne_nil (h : List (PyStr × Nat)) (k : PyStr) (hk : k ≠ [])
    (hp : ∀ q ∈ h, q.1 ≠ []) : ∀ p ∈ bump h k, p.1 ≠ [] := by
  induction h with
  | nil => simp [bump]; exact hk
  | cons q t ih =>
    obtain ⟨k', c⟩ := q
    by_cases hkk : k' = k
    · simp only [bump, if_pos hkk]
      intro p hp'
      rcases List.mem_cons.mp hp' with h1 | h2
      · subst h1; exact hp (k', c) (List.mem_cons_self _ _)
      · exact hp p (List.mem_cons_of_mem _ h2)
    · simp only [bump, if_neg hkk]
      intro p hp'
      rcases List.mem_cons.mp hp' with h1 | h2
      · subst h1; exact hp (k', c) (List.mem_cons_self _ _)
      · exact ih (fun q hq => hp q (List.mem_cons_of_mem _ hq)) p h2

theorem foldl_keys_ne_nil (P : List (Option PyDate)) : ∀ h,
    (∀ q ∈ h, q.1 ≠ []) → ∀ p ∈ P.foldl bumpOpt h, p.1 ≠ [] := by
  induction P with
  | nil => intro h hp; simpa using hp
  | cons o rest ih =>
    intro h hp
    cases o with
    | none => exact ih h hp
    | some dt =>
      exact ih (bump h (isoDate dt)) (bump_keys_ne_nil h (isoDate dt) (isoDate_ne_nil dt) hp)

theorem most_common1_eq_none (h : List (PyStr × Nat)) :
    most_common1 h = none ↔ h = [] := by
  cases h with
  | nil => simp [most_common1]
  | cons p t =>
    obtain ⟨k, c⟩ := p
    simp only [most_common1]
    cases most_common1 t with
    | none => simp
    | some q =>
      obtain ⟨k', c'⟩ := q
      by_cases hlt : c < c' <;> simp [hlt]

theorem most_common1_cons_some (k0 : PyStr) (c0 : Nat) (t : List (PyStr × Nat))
    (k' : PyStr) (c' : Nat) (hmt : most_common1 t = some (k', c')) :
    most_common1 ((k0, c0) :: t) =
      if c0 < c' then some (k', c') else some (k0, c0) := by
  simp [most_common1, hmt]

/-- `most_common(1)` returns a maximal count. -/
theorem most_common1_max (h : List (PyStr × Nat)) : ∀ k c,
    most_common1 h = some (k, c) → ∀ p ∈ h, p.2 ≤ c := by
  induction h with
  | nil => intro k c hmc; simp [most_common1] at hmc
  | cons q t ih =>
    obtain ⟨k0, c0⟩ := q
    intro k c hmc p hp
    rcases hmt : most_common1 t with _ | ⟨k', c'⟩
    · have ht : t = [] := (most_common1_eq_none t).mp hmt
      subst ht
      simp [most_common1] at hmc
      rcases List.mem_cons.mp hp with h1 | h2
      · subst h1; simp [hmc.2]
      · simp at h2
    · rw [most_common1_cons_some k0 c0 t k' c' hmt] at hmc
      by_cases hlt : c0 < c'
      · rw [if_pos hlt] at hmc
        simp only [Option.some.injEq, Prod.mk.injEq] at hmc
        obtain ⟨hk, hc⟩ := hmc
        subst hc
        rcases List.mem_cons.mp hp with h1 | h2
        · subst h1; omega
        · exact ih _ _ hmt p h2
      · rw [if_neg hlt] at hmc
        simp only [Option.some.injEq, Prod.mk.injEq] at hmc
        obtain ⟨hk, hc⟩ := hmc
        subst hc
        rcases List.mem_cons.mp hp with h1 | h2
        · subst h1; rfl
        · have := ih _ _ hmt p h2
          omega

/-- `most_common(1)` returns the first entry attaining the maximal count:
every earlier entry has a strictly smaller count. -/
theorem most_common1_first (h : List (PyStr × Nat)) : ∀ k c,
    most_common1 h = some (k, c) →
    ∃ pre post, h = pre ++ (k, c) :: post ∧ ∀ p ∈ pre, p.2 < c := by
  induction h with
  | nil => intro k c hmc; simp [most_common1] at hmc
  | cons q t ih =>
    obtain ⟨k0, c0⟩ := q
    intro k c hmc
    rcases hmt : most_common1 t with _ | ⟨k', c'⟩
    · have ht : t = [] := (most_common1_eq_none t).mp hmt
      subst ht
      simp [most_common1] at hmc
      obtain ⟨hk, hc⟩ := hmc
      subst hk; subst hc
      exact ⟨[], [], rfl, by simp⟩
    · rw [most_common1_cons_some k0 c0 t k' c' hmt] at hmc
      by_cases hlt : c0 < c'
      · rw [if_pos hlt] at hmc
        simp only [Option.some.injEq, Prod.mk.injEq] at hmc
        obtain ⟨hk, hc⟩ := hmc
        subst hk; subst hc
        obtain ⟨pre, post, hsplit, hpre⟩ := ih _ _ hmt
        refine ⟨(k0, c0) :: pre, post, by rw [hsplit]; rfl, ?_⟩
        intro p hp
        rcases List.mem_cons.mp hp with h1 | h2
        · subst h1; exact hlt
        · exact hpre p h2
      · rw [if_neg hlt] at hmc
        simp only [Option.some.injEq, Prod.mk.injEq] at hmc
        obtain ⟨hk, hc⟩ := hmc
        subst hk; subst hc
        exact ⟨[], t, rfl, by simp⟩

theorem most_common1_mem (h : List (PyStr × Nat)) (k : PyStr) (c : Nat)
    (hmc : most_common1 h = some (k, c)) : (k, c) ∈ h := by
  obtain ⟨pre, post, hsplit, _⟩ := most_common1_first h k c hmc
  rw [hsplit]
  exact List.mem_append_right _ (List.mem_cons_self _ _)

theorem scan_parts (ds : List (Option PyDate)) (h : List (PyStr × Nat)) (t : Nat)
    (hscan : scan_folder ds = (h, t)) :
    t = procCount ds 0 ∧ h = (ds.take t).foldl bumpOpt [] := by
  rw [scan_folder_eq, Prod.mk.injEq] at hscan
  obtain ⟨hh, ht⟩ := hscan
  refine ⟨ht.symm, ?_⟩
  rw [← ht]
  exact hh.symm

theorem scan_total_pos (ds : List (Option PyDate)) (h : List (PyStr × Nat)) (t : Nat)
    (hscan : scan_folder ds = (h, t)) (hne : h ≠ []) : 0 < t := by
  obtain ⟨ht, hh⟩ := scan_parts ds h t hscan
  rcases Nat.eq_zero_or_pos t with h0 | h0
  · subst h0
    simp at hh
    exact absurd hh hne
  · exact h0

theorem scan_counts_pos (ds : List (Option PyDate)) (h : List (PyStr × Nat)) (t : Nat)
    (hscan : scan_folder ds = (h, t)) : ∀ p ∈ h, 1 ≤ p.2 := by
  obtain ⟨_, hh⟩ := scan_parts ds h t hscan
  intro p hp
  exact foldl_pos (ds.take t) [] (by simp) p (hh ▸ hp)

theorem scan_top_ne_nil (ds : List (Option PyDate)) (h : List (PyStr × Nat)) (t : Nat)
    (top : PyStr) (m : Nat) (hscan : scan_folder ds = (h, t))
    (hmc : most_common1 h = some (top, m)) : top ≠ [] := by
  obtain ⟨_, hh⟩ := scan_parts ds h t hscan
  have hmem := most_common1_mem h top m hmc
  exact foldl_keys_ne_nil (ds.take t) [] (by simp) (top, m) (hh ▸ hmem)

theorem foldl_all_none (P : List (Option PyDate)) (hP : ∀ d ∈ P, d = none) :
    ∀ h, P.foldl bumpOpt h = h := by
  induction P with
  | nil => intro h; rfl
  | cons o rest ih =>
    intro h
    have ho : o = none := hP o (List.mem_cons_self _ _)
    subst ho
    exact ih (fun d hd => hP d (List.mem_cons_of_mem _ hd)) h

/-- The planning and execute tail of `_process_folder` (steps 3 and 4 of the
source), shared by the decision lemmas. -/
def planAndExecute (cfg : Config) (fs : List PyStr) (folder_path : PyStr) (top : PyStr) :
    FolderResult × List PyStr :=
  let out := execute fs folder_path
    (pyStrip (top ++ ' ' :: clean_base_name cfg.name_case (basename folder_path)))
    cfg.live_run
  (⟨out.status, basename folder_path,
    (if out.status = "error" then out.name else []), out.name, folder_path,
    some (pathJoin (dirname folder_path) out.name)⟩, out.fs)

/-- Unfolding of `_process_folder` once the scan produced a usable mode. -/
theorem process_folder_eq_of (cfg : Config) (fs : List PyStr) (folder_path : PyStr)
    (ds : List (Option PyDate)) (h : List (PyStr × Nat)) (t : Nat) (top : PyStr) (m : Nat)
    (hscan : scan_folder ds = (h, t)) (hne : h ≠ []) (hmc : most_common1 h = some (top, m))
    (htop : top ≠ []) :
    process_folder cfg fs folder_path ds =
      if confidence m t < cfg.conf_threshold then
        (⟨"skipped", basename folder_path, lowConfReason (confidence m t), [],
          folder_path, none⟩, fs)
      else planAndExecute cfg fs folder_path top := by
  unfold process_folder planAndExecute
  rw [hscan]
  simp only [if_neg hne, hmc, if_neg htop]

theorem execute_status_cases (fs : List PyStr) (old_path new_name : PyStr)
    (live_mode : Bool) :
    (execute fs old_path new_name live_mode).status = "unchanged" ∨
    (execute fs old_path new_name live_mode).status = "renamed" ∨
    (execute fs old_path new_name live_mode).status = "error" ∨
    (execute fs old_path new_name live_mode).status = "dry_run" := by
  unfold execute
  by_cases h1 : basename old_path = sanitize_name new_name
  · simp [h1]
  · cases live_mode with
    | true =>
      by_cases h2 : old_path ∈ fs <;> simp [h1, h2]
    | false => simp [h1]

theorem execute_status_ne_skipped (fs : List PyStr) (old_path new_name : PyStr)
    (live_mode : Bool) : (execute fs old_path new_name live_mode).status ≠ "skipped" := by
  rcases execute_status_cases fs old_path new_name live_mode with h | h | h | h <;>
    (rw [h]; decide)

/-- Claim C2: with a non-empty histogram of mode count `m` and `t` files
scanned, the folder is skipped for low confidence exactly when `m / t` is
below the threshold; exact equality passes; and the divide-by-zero guard
makes the confidence 0 when nothing was scanned. -/
theorem confidence_threshold_spec (cfg : Config) (fs : List PyStr) (folder_path : PyStr)
    (ds : List (Option PyDate)) (h : List (PyStr × Nat)) (t : Nat) (top : PyStr) (m : Nat)
    (hscan : scan_folder ds = (h, t)) (hne : h ≠ []) (hmc : most_common1 h = some (top, m)) :
    ((process_folder cfg fs folder_path ds).1.status = "skipped" ↔
      (m : ℚ) / (t : ℚ) < cfg.conf_threshold) ∧
    ((process_folder cfg fs folder_path ds).1.status = "skipped" →
      (process_folder cfg fs folder_path ds).1.reason = lowConfReason (confidence m t)) ∧
    ((m : ℚ) / (t : ℚ) = cfg.conf_threshold →
      (process_folder cfg fs folder_path ds).1.status ≠ "skipped") ∧
    (∀ m' : Nat, confidence m' 0 = 0) := by
  have htpos : 0 < t := scan_total_pos ds h t hscan hne
  have htop : top ≠ [] := scan_top_ne_nil ds h t top m hscan hmc
  have hconf : confidence m t = (m : ℚ) / (t : ℚ) := by
    simp [confidence, htpos]
  rw [process_folder_eq_of cfg fs folder_path ds h t top m hscan hne hmc htop]
  by_cases hlt : confidence m t < cfg.conf_threshold
  · rw [if_pos hlt]
    refine ⟨?_, ?_, ?_, ?_⟩
    · simp only [true_iff]
      rw [← hconf]
      exact hlt
    · intro _; rfl
    · intro heq
      rw [hconf, heq] at hlt
      exact absurd hlt (lt_irrefl _)
    · intro m'; simp [confidence]
  · rw [if_neg hlt]
    refine ⟨?_, ?_, ?_, ?_⟩
    · constructor
      · intro hst
        exact absurd hst (by
          simpa [planAndExecute] using
            execute_status_ne_skipped fs folder_path
              (pyStrip (top ++ ' ' :: clean_base_name cfg.name_case (basename folder_path)))
              cfg.live_run)
      · intro hm
        rw [← hconf] at hm
        exact absurd hm hlt
    · intro hst
      exact absurd hst (by
        simpa [planAndExecute] using
          execute_status_ne_skipped fs folder_path
            (pyStrip (top ++ ' ' :: clean_base_name cfg.name_case (basename folder_path)))
            cfg.live_run)
    · intro _
      simpa [planAndExecute] using
        execute_status_ne_skipped fs folder_path
          (pyStrip (top ++ ' ' :: clean_base_name cfg.name_case (basename folder_path)))
          cfg.live_run
    · intro m'; simp [confidence]

/-- Claim C3: the selected mode date carries a maximal count, every
histogram entry before it counts strictly less, and the histogram's key
order is the first-seen order of the dates over the processed files. -/
theorem mode_tie_break_first_seen (ds : List (Option PyDate)) (h : List (PyStr × Nat))
    (t : Nat) (top : PyStr) (m : Nat) (hscan : scan_folder ds = (h, t))
    (hmc : most_common1 h = some (top, m)) :
    (∀ p ∈ h, p.2 ≤ m) ∧
    (∃ pre post, h = pre ++ (top, m) :: post ∧ ∀ p ∈ pre, p.2 < m) ∧
    keysOf h = firstOccsAux [] ((ds.take t).filterMap (fun o => o.map isoDate)) := by
  obtain ⟨_, hh⟩ := scan_parts ds h t hscan
  refine ⟨most_common1_max h top m hmc, most_common1_first h top m hmc, ?_⟩
  rw [hh]
  simpa [keysOf_nil] using foldl_keys (ds.take t) []

/-- Claim C4: the scan stops as soon as 50 successfully dated files have
been collected — the histogram total is the number of dated files among the
processed prefix, never exceeds 50, every proper processed prefix had fewer
than 50 dated files, and stopping before the end of the candidate list
happens exactly at 50; scanned count can exceed the dated count. -/
theorem scan_sample_cap :
    (∀ ds : List (Option PyDate),
      histSum (scan_folder ds).1 ≤ SAMPLE_SIZE ∧
      histSum (scan_folder ds).1 = countSome (ds.take (scan_folder ds).2) ∧
      (scan_folder ds).2 ≤ ds.length ∧
      (∀ k, k < (scan_folder ds).2 → countSome (ds.take k) < SAMPLE_SIZE) ∧
      ((scan_folder ds).2 < ds.length →
        countSome (ds.take (scan_folder ds).2) = SAMPLE_SIZE)) ∧
    (∃ ds : List (Option PyDate), histSum (scan_folder ds).1 < (scan_folder ds).2) := by
  constructor
  · intro ds
    obtain ⟨ht, hh⟩ := scan_parts ds (scan_folder ds).1 (scan_folder ds).2 rfl
    have hsum : histSum (scan_folder ds).1 = countSome (ds.take (scan_folder ds).2) := by
      rw [hh, histSum_foldl]
      simp [histSum]
    refine ⟨?_, hsum, ?_, ?_, ?_⟩
    · rw [hsum, ht]
      have := procCount_total_le ds 0 (by simp [SAMPLE_SIZE])
      omega
    · rw [ht]; exact procCount_le_length ds 0
    · intro k hk
      rw [ht] at hk
      have := procCount_lt_cap ds 0 k hk
      omega
    · intro hlt
      rw [ht] at hlt ⊢
      have := procCount_stop ds 0 (by simp [SAMPLE_SIZE]) hlt
      omega
  · exact ⟨[none], by decide⟩

/-- Claim C8: the total number of scanned files is at least the sum of the
histogram's occurrence counts. -/
theorem scan_total_ge_histSum (ds : List (Option PyDate)) :
    histSum (scan_folder ds).1 ≤ (scan_folder ds).2 := by
  obtain ⟨ht, hh⟩ := scan_parts ds (scan_folder ds).1 (scan_folder ds).2 rfl
  rw [hh, histSum_foldl]
  simp only [histSum, List.map_nil, List.sum_nil, Nat.zero_add]
  calc countSome (ds.take (scan_folder ds).2)
      ≤ (ds.take (scan_folder ds).2).length := List.countP_le_length _
    _ ≤ (scan_folder ds).2 := by
        rw [List.length_take]
        exact min_le_left _ _

/-- Claim C9 (amended): a folder with no candidate files, or whose files all
yield no date, is skipped with the reason string
`"No valid dates found (Empty)"`, as a normal (non-error) outcome. -/
theorem empty_histogram_skipped (cfg : Config) (fs : List PyStr) (folder_path : PyStr)
    (ds : List (Option PyDate)) (hds : ds = [] ∨ ∀ d ∈ ds, d = none) :
    (process_folder cfg fs folder_path ds).1.status = "skipped" ∧
    (process_folder cfg fs folder_path ds).1.reason =
      ("No valid dates found (Empty)").toList ∧
    (process_folder cfg fs folder_path ds).1.status ≠ "error" := by
  have hscan := scan_folder_eq ds
  have hempty : (scan_folder ds).1 = [] := by
    rcases hds with rfl | hall
    · rfl
    · rw [hscan]
      exact foldl_all_none _ (fun d hd => hall d (List.mem_of_mem_take hd)) []
  have hpf : process_folder cfg fs folder_path ds =
      (⟨"skipped", basename folder_path, ("No valid dates found (Empty)").toList, [],
        folder_path, none⟩, fs) := by
    simp only [process_folder, hempty]
    rfl
  rw [hpf]
  exact ⟨rfl, rfl, (by decide : ("skipped" : String) ≠ "error")⟩

/-- Claim C9 counterexample to the exact reason string: for a folder with
zero candidate files the result is skipped, but the recorded reason is not
the string `"no valid dates"`. -/
theorem empty_reason_string_counterexample :
    (process_folder ⟨false, 0, CaseT.title⟩ [] ("/vol/A").toList []).1.status = "skipped" ∧
    (process_folder ⟨false, 0, CaseT.title⟩ [] ("/vol/A").toList []).1.reason ≠
      ("no valid dates").toList := by
  decide

/-- Case analysis on `_process_folder`: either a skip branch answered (with
no `full_new_path` recorded), or the plan-and-execute tail ran. -/
theorem process_folder_cases (cfg : Config) (fs : List PyStr) (folder_path : PyStr)
    (ds : List (Option PyDate)) :
    ((process_folder cfg fs folder_path ds).1.status = "skipped" ∧
     (process_folder cfg fs folder_path ds).1.full_new_path = none) ∨
    (∃ top, process_folder cfg fs folder_path ds = planAndExecute cfg fs folder_path top) := by
  unfold process_folder planAndExecute
  by_cases h1 : (scan_folder ds).1 = []
  · left; simp [h1]
  · rcases hmc : most_common1 (scan_folder ds).1 with _ | ⟨top, m⟩
    · left; simp [h1, hmc]
    · by_cases h2 : top = []
      · left; simp [h1, hmc, h2]
      · by_cases h3 : confidence m (scan_folder ds).2 < cfg.conf_threshold
        · left; simp [h1, hmc, h2, h3]
        · right
          refine ⟨top, ?_⟩
          simp [h1, hmc, h2, h3]

/-- Claim C10: when the execute step reports `error`, the resulting record
carries the error message both as `reason` and as `new_name`, and its
`full_new_path` is the parent directory joined with that message. -/
theorem error_message_in_fields (cfg : Config) (fs : List PyStr) (folder_path : PyStr)
    (ds : List (Option PyDate))
    (herr : (process_folder cfg fs folder_path ds).1.status = "error") :
    (process_folder cfg fs folder_path ds).1.reason =
      (process_folder cfg fs folder_path ds).1.new_name ∧
    (process_folder cfg fs folder_path ds).1.full_new_path =
      some (pathJoin (dirname folder_path)
        (process_folder cfg fs folder_path ds).1.new_name) := by
  rcases process_folder_cases cfg fs folder_path ds with ⟨hsk, _⟩ | ⟨top, heq⟩
  · rw [hsk] at herr
    exact absurd herr (by decide)
  · rw [heq] at herr ⊢
    simp only [planAndExecute] at herr ⊢
    simp [herr]

theorem natCharsAux_zero : ∀ fuel, natCharsAux fuel 0 = [] := by
  intro fuel; cases fuel <;> simp [natCharsAux]

theorem digitsVal_append_digit (s : PyStr) (c : Char) :
    digitsVal (s ++ [c]) = digitsVal s * 10 + (c.toNat - 48) := by
  simp [digitsVal, List.foldl_append]

theorem val_digitChar (d : Nat) (hd : d < 10) : (Nat.digitChar d).toNat - 48 = d := by
  interval_cases d <;> decide

theorem natCharsAux_decode : ∀ fuel n, n ≠ 0 → n ≤ fuel →
    digitsVal (natCharsAux fuel n) = n := by
  intro fuel
  induction fuel with
  | zero => intro n hn hle; omega
  | succ fuel ih =>
    intro n hn hle
    simp only [natCharsAux, if_neg hn]
    rw [digitsVal_append_digit]
    by_cases h10 : n / 10 = 0
    · rw [h10, natCharsAux_zero]
      rw [val_digitChar _ (Nat.mod_lt _ (by norm_num))]
      simp [digitsVal]
      omega
    · rw [ih (n / 10) h10 (by omega), val_digitChar _ (Nat.mod_lt _ (by norm_num))]
      omega

theorem digitsVal_natChars (n : Nat) : digitsVal (natChars n) = n := by
  by_cases hn : n = 0
  · subst hn; decide
  · simp only [natChars, if_neg hn]
    exact natCharsAux_decode n n hn le_rfl

theorem natChars_injective : Function.Injective natChars := by
  intro a b hab
  have ha := digitsVal_natChars a
  rw [hab, digitsVal_natChars] at ha
  exact ha.symm

theorem candidateName_injective (base : PyStr) :
    Function.Injective (candidateName base) := by
  intro a b hab
  unfold candidateName at hab
  have h1 := List.append_cancel_left hab
  simp only [List.cons.injEq, true_and] at h1
  exact natChars_injective (List.append_cancel_right h1)

/-- Since the suffixed candidate names are pairwise distinct and the
filesystem is finite, some candidate index in `[n, n + |fs|]` is free. -/
theorem exists_free_candidate (fs : List PyStr) (base : PyStr) (n : Nat) :
    ∃ k, n ≤ k ∧ k ≤ n + fs.length ∧ candidateName base k ∉ fs := by
  by_contra hcon
  push_neg at hcon
  have hsub : (Finset.Icc n (n + fs.length)).image (candidateName base) ⊆ fs.toFinset := by
    intro x hx
    simp only [Finset.mem_image, Finset.mem_Icc] at hx
    obtain ⟨k, ⟨hk1, hk2⟩, rfl⟩ := hx
    exact List.mem_toFinset.mpr (hcon k hk1 hk2)
  have hcard : (Finset.Icc n (n + fs.length)).card = fs.length + 1 := by
    rw [Nat.card_Icc]; omega
  have h1 : fs.length + 1 ≤ fs.toFinset.card := by
    rw [← hcard,
      ← Finset.card_image_of_injOn ((candidateName_injective base).injOn)]
    exact Finset.card_le_card hsub
  have h2 := List.toFinset_card_le fs
  omega

theorem findFree_spec (fs : List PyStr) (base : PyStr) : ∀ fuel n,
    (∃ k, n ≤ k ∧ k < n + fuel ∧ candidateName base k ∉ fs) →
    n ≤ findFree fs base fuel n ∧
    candidateName base (findFree fs base fuel n) ∉ fs ∧
    (∀ m, n ≤ m → m < findFree fs base fuel n → candidateName base m ∈ fs) := by
  intro fuel
  induction fuel with
  | zero =>
    rintro n ⟨k, hk1, hk2, _⟩
    omega
  | succ fuel ih =>
    rintro n ⟨k, hk1, hk2, hk3⟩
    by_cases hmem : candidateName base n ∈ fs
    · simp only [findFree, if_pos hmem]
      have hkn : k ≠ n := by
        intro hEq
        subst hEq
        exact hk3 hmem
      obtain ⟨ih1, ih2, ih3⟩ := ih (n + 1) ⟨k, by omega, by omega, hk3⟩
      refine ⟨by omega, ih2, ?_⟩
      intro m hm1 hm2
      rcases Nat.eq_or_lt_of_le hm1 with hEq | hlt
      · subst hEq; exact hmem
      · exact ih3 m (by omega) hm2
    · simp only [findFree, if_neg hmem]
      exact ⟨le_rfl, hmem, fun m hm1 hm2 => absurd (lt_of_le_of_lt hm1 hm2) (lt_irrefl n)⟩

/-- Claim C5: the unique-path computation never answers an existing path,
returns the base path itself when it is free, and otherwise appends ` (n)`
for the smallest `n ≥ 1` whose name is free. -/
theorem get_unique_path_spec (fs : List PyStr) (base : PyStr) :
    get_unique_path fs base ∉ fs ∧
    (base ∉ fs → get_unique_path fs base = base) ∧
    (base ∈ fs → ∃ n, 1 ≤ n ∧ get_unique_path fs base = candidateName base n ∧
      candidateName base n ∉ fs ∧
      ∀ m, 1 ≤ m → m < n → candidateName base m ∈ fs) := by
  by_cases hb : base ∈ fs
  · obtain ⟨k, hk1, hk2, hk3⟩ := exists_free_candidate fs base 1
    obtain ⟨h1, h2, h3⟩ :=
      findFree_spec fs base (fs.length + 1) 1 ⟨k, hk1, by omega, hk3⟩
    unfold get_unique_path
    rw [if_pos hb]
    exact ⟨h2, fun hnb => absurd hb hnb,
      fun _ => ⟨findFree fs base (fs.length + 1) 1, h1, rfl, h2, h3⟩⟩
  · unfold get_unique_path
    rw [if_neg hb]
    exact ⟨hb, fun _ => rfl, fun hmem => absurd hmem hb⟩

/-- Claim C7: in dry-run mode with a sanitized name different from the
current base name, the executor reports `dry_run`, leaves the filesystem
untouched, and reports exactly the unique target name live mode would pick
(live mode renames to the same name when the source exists). -/
theorem dry_run_spec (fs : List PyStr) (old_path new_name : PyStr)
    (hdiff : basename old_path ≠ sanitize_name new_name) :
    (execute fs old_path new_name false).status = "dry_run" ∧
    (execute fs old_path new_name false).fs = fs ∧
    (execute fs old_path new_name false).name =
      basename (get_unique_path fs (pathJoin (dirname old_path) (sanitize_name new_name))) ∧
    (old_path ∈ fs →
      (execute fs old_path new_name true).status = "renamed" ∧
      (execute fs old_path new_name true).name =
        (execute fs old_path new_name false).name) := by
  have hdry : execute fs old_path new_name false =
      ⟨"dry_run",
        basename (get_unique_path fs (pathJoin (dirname old_path) (sanitize_name new_name))),
        fs⟩ := by
    simp [execute, hdiff]
  refine ⟨by rw [hdry], by rw [hdry], by rw [hdry], ?_⟩
  intro hmem
  have hlive : execute fs old_path new_name true =
      ⟨"renamed",
        basename (get_unique_path fs (pathJoin (dirname old_path) (sanitize_name new_name))),
        osRename fs old_path
          (get_unique_path fs (pathJoin (dirname old_path) (sanitize_name new_name)))⟩ := by
    simp [execute, hdiff, hmem]
  rw [hdry, hlive]
  exact ⟨rfl, rfl⟩

theorem dropWhile_all_not (p : Char → Bool) (l : PyStr)
    (hl : ∀ c ∈ l, p c = false) : l.dropWhile p = l := by
  cases l with
  | nil => rfl
  | cons c cs =>
    rw [List.dropWhile_cons, if_neg]
    simp [hl c (List.mem_cons_self _ _)]

theorem pyStrip_append_space (l : PyStr) (hl : ∀ c ∈ l, isPySpace c = false) :
    pyStrip (l ++ [' ']) = l := by
  cases l with
  | nil => decide
  | cons c cs =>
    have hc : isPySpace c = false := hl c (List.mem_cons_self _ _)
    unfold pyStrip
    have h1 : ((c :: cs) ++ [' ']).dropWhile isPySpace = c :: (cs ++ [' ']) := by
      rw [List.cons_append, List.dropWhile_cons, if_neg]
      simp [hc]
    rw [h1]
    have h2 : (c :: (cs ++ [' '])).reverse = ' ' :: (cs.reverse ++ [c]) := by
      simp
    rw [h2, List.dropWhile_cons, if_pos (by decide)]
    rw [dropWhile_all_not isPySpace (cs.reverse ++ [c]) ?mem]
    · simp
    case mem =>
      intro x hx
      rcases List.mem_append.mp hx with hx1 | hx2
      · exact hl x (List.mem_cons_of_mem _ (List.mem_reverse.mp hx1))
      · rw [List.mem_singleton.mp hx2]; exact hc

theorem digitChar_not_space (d : Nat) : isPySpace (Nat.digitChar d) = false := by
  by_cases h : d < 16
  · interval_cases d <;> decide
  · have hstar : Nat.digitChar d = '*' := by
      unfold Nat.digitChar
      repeat rw [if_neg (by omega)]
    rw [hstar]; decide

theorem natCharsAux_no_space : ∀ fuel n, ∀ c ∈ natCharsAux fuel n,
    isPySpace c = false := by
  intro fuel
  induction fuel with
  | zero => intro n c hc; simp [natCharsAux] at hc
  | succ fuel ih =>
    intro n c hc
    by_cases hn : n = 0
    · simp [natCharsAux, hn] at hc
    · simp only [natCharsAux, if_neg hn] at hc
      rcases List.mem_append.mp hc with h1 | h2
      · exact ih (n / 10) c h1
      · rw [List.mem_singleton.mp h2]
        exact digitChar_not_space (n % 10)

theorem natChars_no_space (n : Nat) : ∀ c ∈ natChars n, isPySpace c = false := by
  intro c hc
  by_cases hn : n = 0
  · simp [natChars, hn] at hc
    rw [hc]; decide
  · simp only [natChars, if_neg hn] at hc
    exact natCharsAux_no_space n n c hc

theorem padZeros_no_space (w : Nat) (s : PyStr) (hs : ∀ c ∈ s, isPySpace c = false) :
    ∀ c ∈ padZeros w s, isPySpace c = false := by
  intro c hc
  rcases List.mem_append.mp hc with h1 | h2
  · rw [List.eq_of_mem_replicate h1]; decide
  · exact hs c h2

theorem isoDate_no_space (d : PyDate) : ∀ c ∈ isoDate d, isPySpace c = false := by
  intro c hc
  unfold isoDate at hc
  rcases List.mem_append.mp hc with h1 | h2
  · exact padZeros_no_space 4 (natChars d.year) (natChars_no_space d.year) c h1
  · rcases List.mem_cons.mp h2 with h3 | h4
    · rw [h3]; decide
    · rcases List.mem_append.mp h4 with h5 | h6
      · exact padZeros_no_space 2 (natChars d.month) (natChars_no_space d.month) c h5
      · rcases List.mem_cons.mp h6 with h7 | h8
        · rw [h7]; decide
        · exact padZeros_no_space 2 (natChars d.day) (natChars_no_space d.day) c h8

/-- Claim C1 (amended): when the leading-noise-stripped folder name is
empty, `_clean_base_name` of `exif-parallel-organizer.py` returns the empty
string — so the planned name `f"{top_date} {base_name}".strip()` degenerates
to the bare mode date — whereas `clean_folder_name_regex` of
`exif-date-organizer.py` is the variant that falls back to the original
folder name. -/
theorem empty_cleaned_name_behavior (case : CaseT) (name : PyStr) (dt : PyDate)
    (hstrip : pyStrip (name.dropWhile isNoiseChar) = []) :
    clean_base_name case name = [] ∧
    pyStrip (isoDate dt ++ ' ' :: clean_base_name case name) = isoDate dt ∧
    clean_folder_name_regex case name = name := by
  have h1 : clean_base_name case name = [] := by
    simp [clean_base_name, hstrip]
  refine ⟨h1, ?_, by simp [clean_folder_name_regex, hstrip]⟩
  rw [h1]
  exact pyStrip_append_space (isoDate dt) (isoDate_no_space dt)

/-- Claim C1 counterexample: for the all-noise folder name `"2019.02"` with
one photo dated 2020-05-01, `_process_folder` of
`exif-parallel-organizer.py` proposes the bare date `"2020-05-01"`, not
`"2020-05-01 2019.02"`. -/
theorem bare_date_counterexample :
    (process_folder ⟨false, (3 : ℚ)/5, CaseT.title⟩ [] ("/vol/2019.02").toList
        [some ⟨2020, 5, 1⟩]).1.new_name = ("2020-05-01").toList ∧
    ("2020-05-01").toList ≠ ("2020-05-01 2019.02").toList := by
  constructor
  · have hscan : scan_folder [some ⟨2020, 5, 1⟩] =
        ([(("2020-05-01").toList, 1)], 1) := by decide
    have hmc : most_common1 [(("2020-05-01").toList, 1)] =
        some (("2020-05-01").toList, 1) := by decide
    rw [process_folder_eq_of ⟨false, (3 : ℚ)/5, CaseT.title⟩ [] (("/vol/2019.02").toList)
      [some ⟨2020, 5, 1⟩] [(("2020-05-01").toList, 1)] 1 (("2020-05-01").toList) 1
      hscan (by decide) hmc (by decide)]
    rw [if_neg (by
      simp only [confidence, Nat.cast_one, if_pos (by norm_num : (0:Nat) < 1)]
      norm_num)]
    decide
  · decide

theorem parse_date_year_range (s : Option PyStr) (maxYear : Nat) :
    parse_date s maxYear = none ∨
    ∃ dt, parse_date s maxYear = some dt ∧ MIN_YEAR ≤ dt.year ∧ dt.year ≤ maxYear := by
  cases s with
  | none => exact Or.inl rfl
  | some str =>
    by_cases hnil : str = []
    · left; simp [parse_date, hnil]
    · rcases hsp : strptimeYMD (datePart str) with _ | dt
      · left; simp [parse_date, hnil, hsp]
      · by_cases hr : MIN_YEAR ≤ dt.year ∧ dt.year ≤ maxYear
        · right
          refine ⟨dt, ?_, hr.1, hr.2⟩
          simp [parse_date, hnil, hsp, hr.1, hr.2]
        · left
          simp only [parse_date, if_neg hnil, hsp]
          rw [if_neg]
          simp only [Bool.and_eq_true, decide_eq_true_eq]
          omega

theorem parse_date_rejects_out_of_range (str : PyStr) (maxYear : Nat) (dt : PyDate)
    (hsp : strptimeYMD (datePart str) = some dt)
    (hout : dt.year < MIN_YEAR ∨ maxYear < dt.year) :
    parse_date (some str) maxYear = none := by
  by_cases hnil : str = []
  · simp [parse_date, hnil]
  · simp only [parse_date, if_neg hnil, hsp]
    rw [if_neg]
    simp only [Bool.and_eq_true, decide_eq_true_eq]
    omega

/-- Claim C6 counterexample: for a video file, the container creation date
is returned as-is — a year far below `MIN_YEAR` (the classic 1970 epoch
corruption) is *not* rejected as "no date". -/
theorem video_year_unchecked_counterexample :
    get_date FileKind.video none true (some ⟨1970, 1, 1⟩) 2026 = some ⟨1970, 1, 1⟩ ∧
    (⟨1970, 1, 1⟩ : PyDate).year < MIN_YEAR := by
  decide

/-- Claim C6 (amended): date extraction is total (any failure is reported
as `none`, never an exception); on the image/EXIF path a parsed date whose
year lies outside `[MIN_YEAR, maxYear]` is rejected as `none`; a video
without hachoir, or a file with an unrecognised extension, yields `none`;
but a video date obtained from hachoir is returned without the year
check. -/
theorem date_extraction_amended (maxYear : Nat) :
    (∀ exif, get_image_date exif maxYear = none ∨
      ∃ dt, get_image_date exif maxYear = some dt ∧
        MIN_YEAR ≤ dt.year ∧ dt.year ≤ maxYear) ∧
    (∀ str dt, strptimeYMD (datePart str) = some dt →
      dt.year < MIN_YEAR ∨ maxYear < dt.year →
      parse_date (some str) maxYear = none) ∧
    (∀ exif vmeta, get_date FileKind.video exif false vmeta maxYear = none) ∧
    (∀ exif hachoir vmeta, get_date FileKind.other exif hachoir vmeta maxYear = none) ∧
    (∀ exif vmeta, get_date FileKind.video exif true vmeta maxYear = vmeta) := by
  refine ⟨?_, ?_, ?_, ?_, ?_⟩
  · intro exif
    cases exif with
    | none => exact Or.inl rfl
    | some p =>
      obtain ⟨t1, t2⟩ := p
      exact parse_date_year_range (orFalsy t1 t2) maxYear
  · intro str dt hsp hout
    exact parse_date_rejects_out_of_range str maxYear dt hsp hout
  · intro exif vmeta; rfl
  · intro exif hachoir vmeta; rfl
  · intro exif vmeta; rfl

/-- Witness for the amended claim C1 at the all-noise name `"2019.02"`. -/
theorem empty_cleaned_name_behavior_witness :
    clean_base_name CaseT.title ("2019.02").toList = [] ∧
    pyStrip (isoDate ⟨2020, 5, 1⟩ ++ ' ' :: clean_base_name CaseT.title ("2019.02").toList) =
      isoDate ⟨2020, 5, 1⟩ ∧
    clean_folder_name_regex CaseT.title ("2019.02").toList = ("2019.02").toList :=
  empty_cleaned_name_behavior CaseT.title ("2019.02").toList ⟨2020, 5, 1⟩ (by decide)

/-- Witness for claim C2 at a one-photo folder with threshold 2. -/
theorem confidence_threshold_spec_witness :
    ((process_folder ⟨false, 2, CaseT.title⟩ [] ("/r/A").toList
        [some ⟨2020, 5, 1⟩]).1.status = "skipped" ↔
      ((1 : Nat) : ℚ) / ((1 : Nat) : ℚ) < (⟨false, 2, CaseT.title⟩ : Config).conf_threshold) ∧
    ((process_folder ⟨false, 2, CaseT.title⟩ [] ("/r/A").toList
        [some ⟨2020, 5, 1⟩]).1.status = "skipped" →
      (process_folder ⟨false, 2, CaseT.title⟩ [] ("/r/A").toList
        [some ⟨2020, 5, 1⟩]).1.reason = lowConfReason (confidence 1 1)) ∧
    (((1 : Nat) : ℚ) / ((1 : Nat) : ℚ) = (⟨false, 2, CaseT.title⟩ : Config).conf_threshold →
      (process_folder ⟨false, 2, CaseT.title⟩ [] ("/r/A").toList
        [some ⟨2020, 5, 1⟩]).1.status ≠ "skipped") ∧
    (∀ m' : Nat, confidence m' 0 = 0) :=
  confidence_threshold_spec ⟨false, 2, CaseT.title⟩ [] ("/r/A").toList
    [some ⟨2020, 5, 1⟩] [(("2020-05-01").toList, 1)] 1 ("2020-05-01").toList 1
    (by decide) (by decide) (by decide)

/-- Witness for claim C3 at a two-date tie: the first-seen date wins. -/
theorem mode_tie_break_first_seen_witness :
    (∀ p ∈ [(("2020-05-01").toList, 1), (("2020-05-02").toList, 1)], p.2 ≤ 1) ∧
    (∃ pre post,
      [(("2020-05-01").toList, 1), (("2020-05-02").toList, 1)] =
        pre ++ (("2020-05-01").toList, 1) :: post ∧ ∀ p ∈ pre, p.2 < 1) ∧
    keysOf [(("2020-05-01").toList, 1), (("2020-05-02").toList, 1)] =
      firstOccsAux []
        (([some ⟨2020, 5, 1⟩, some ⟨2020, 5, 2⟩].take 2).filterMap
          (fun o => o.map isoDate)) :=
  mode_tie_break_first_seen [some ⟨2020, 5, 1⟩, some ⟨2020, 5, 2⟩]
    [(("2020-05-01").toList, 1), (("2020-05-02").toList, 1)] 2
    ("2020-05-01").toList 1 (by decide) (by decide)

/-- Witness for claim C4 at a folder of 51 dated files: scanning stops with
exactly 50 dated files collected. -/
theorem scan_sample_cap_witness :
    countSome ((List.replicate 51 (some (⟨2020, 5, 1⟩ : PyDate))).take
      (scan_folder (List.replicate 51 (some (⟨2020, 5, 1⟩ : PyDate)))).2) = SAMPLE_SIZE :=
  (scan_sample_cap.1 (List.replicate 51 (some ⟨2020, 5, 1⟩))).2.2.2.2 (by decide)

/-- Witness for claim C5 at the spec's collision scenario: the occupied name
`"2020-05-01 Old Trip"` is resolved to the ` (1)` suffix. -/
theorem get_unique_path_spec_witness :
    get_unique_path [("2020-05-01 Old Trip").toList] ("2020-05-01 Old Trip").toList ∉
      [("2020-05-01 Old Trip").toList] ∧
    (∃ n, 1 ≤ n ∧
      get_unique_path [("2020-05-01 Old Trip").toList] ("2020-05-01 Old Trip").toList =
        candidateName ("2020-05-01 Old Trip").toList n ∧
      candidateName ("2020-05-01 Old Trip").toList n ∉ [("2020-05-01 Old Trip").toList] ∧
      ∀ m, 1 ≤ m → m < n →
        candidateName ("2020-05-01 Old Trip").toList m ∈ [("2020-05-01 Old Trip").toList]) ∧
    get_unique_path [("2020-05-01 Old Trip").toList] ("2020-05-01 Old Trip").toList =
      ("2020-05-01 Old Trip (1)").toList :=
  ⟨(get_unique_path_spec [("2020-05-01 Old Trip").toList] ("2020-05-01 Old Trip").toList).1,
   (get_unique_path_spec [("2020-05-01 Old Trip").toList]
      ("2020-05-01 Old Trip").toList).2.2 (by decide),
   by decide⟩

/-- Witness for the amended claim C6: `"1999:05:01"` parses but its year is
below `MIN_YEAR`, so the image path reports "no date". -/
theorem date_extraction_amended_witness :
    parse_date (some ("1999:05:01").toList) 2026 = none :=
  (date_extraction_amended 2026).2.1 ("1999:05:01").toList ⟨1999, 5, 1⟩
    (by decide) (Or.inl (by decide))

/-- Witness for claim C7 at the spec's collision scenario in dry-run mode. -/
theorem dry_run_spec_witness :
    (execute [("/r/2020-05-01 Old Trip").toList] ("/r/X").toList
      ("2020-05-01 Old Trip").toList false).status = "dry_run" ∧
    (execute [("/r/2020-05-01 Old Trip").toList] ("/r/X").toList
      ("2020-05-01 Old Trip").toList false).fs = [("/r/2020-05-01 Old Trip").toList] ∧
    (execute [("/r/2020-05-01 Old Trip").toList] ("/r/X").toList
      ("2020-05-01 Old Trip").toList false).name =
      basename (get_unique_path [("/r/2020-05-01 Old Trip").toList]
        (pathJoin (dirname ("/r/X").toList)
          (sanitize_name ("2020-05-01 Old Trip").toList))) ∧
    (("/r/X").toList ∈ [("/r/2020-05-01 Old Trip").toList] →
      (execute [("/r/2020-05-01 Old Trip").toList] ("/r/X").toList
        ("2020-05-01 Old Trip").toList true).status = "renamed" ∧
      (execute [("/r/2020-05-01 Old Trip").toList] ("/r/X").toList
        ("2020-05-01 Old Trip").toList true).name =
        (execute [("/r/2020-05-01 Old Trip").toList] ("/r/X").toList
          ("2020-05-01 Old Trip").toList false).name) :=
  dry_run_spec [("/r/2020-05-01 Old Trip").toList] ("/r/X").toList
    ("2020-05-01 Old Trip").toList (by decide)

/-- Witness for the amended claim C9 at a folder whose two files both yield
no date. -/
theorem empty_histogram_skipped_witness :
    (process_folder ⟨false, 0, CaseT.title⟩ [] ("/v/A").toList [none, none]).1.status =
      "skipped" ∧
    (process_folder ⟨false, 0, CaseT.title⟩ [] ("/v/A").toList [none, none]).1.reason =
      ("No valid dates found (Empty)").toList ∧
    (process_folder ⟨false, 0, CaseT.title⟩ [] ("/v/A").toList [none, none]).1.status ≠
      "error" :=
  empty_histogram_skipped ⟨false, 0, CaseT.title⟩ [] ("/v/A").toList [none, none]
    (Or.inr (by decide))

/-- Witness for claim C10: a live run on a vanished source yields an error
record whose message fills `reason`, `new_name`, and `full_new_path`. -/
theorem error_message_in_fields_witness :
    (process_folder ⟨true, 0, CaseT.title⟩ [] ("/r/Trip").toList
        [some ⟨2020, 5, 1⟩]).1.reason =
      (process_folder ⟨true, 0, CaseT.title⟩ [] ("/r/Trip").toList
        [some ⟨2020, 5, 1⟩]).1.new_name ∧
    (process_folder ⟨true, 0, CaseT.title⟩ [] ("/r/Trip").toList
        [some ⟨2020, 5, 1⟩]).1.full_new_path =
      some (pathJoin (dirname ("/r/Trip").toList)
        (process_folder ⟨true, 0, CaseT.title⟩ [] ("/r/Trip").toList
          [some ⟨2020, 5, 1⟩]).1.new_name) := by
  have herr : (process_folder ⟨true, 0, CaseT.title⟩ [] ("/r/Trip").toList
      [some ⟨2020, 5, 1⟩]).1.status = "error" := by
    rw [process_folder_eq_of ⟨true, 0, CaseT.title⟩ [] (("/r/Trip").toList)
      [some ⟨2020, 5, 1⟩] [(("2020-05-01").toList, 1)] 1 (("2020-05-01").toList) 1
      (by decide) (by decide) (by decide) (by decide)]
    rw [if_neg (by
      simp only [confidence, Nat.cast_one, if_pos (by norm_num : (0:Nat) < 1)]
      norm_num)]
    decide
  exact error_message_in_fields ⟨true, 0, CaseT.title⟩ [] ("/r/Trip").toList
    [some ⟨2020, 5, 1⟩] herr

end ExifOrganizer
